import Mathlib

/-!
Shallow embedding of the realigner repository (sentence-alignment scorer and
document rematching engine) and proofs about the claims of its specification.

Conventions of the embedding:
* Python floats are modelled as rationals `ℚ` (all arithmetic appearing in the
  scorers is rational); the single square root of the evaluation harness is
  modelled in `ℝ`.
* Python dicts are modelled as association lists built in insertion order with
  in-place overwrite on duplicate keys; `OrderedDict` iteration order is the
  key-insertion order of that list.
* Fallible code (Python exceptions: `ZeroDivisionError`, failing `assert`)
  returns `Option`/`Except` values; `none`/`.error` marks the raised error.
* Python `sorted(..., key=lambda x: x[1], reverse=True)` is a stable descending
  sort by score; it is modelled by `List.insertionSort` with the relation
  `scoreRel`, which is stable and therefore produces the identical list.
-/

/-- Accumulator pass of Python `str.split()`: collect the maximal runs of
non-whitespace characters (`cur` holds the current run in reverse). -/
def pySplitGo : List Char → List Char → List String
  | [], cur => if cur.isEmpty then [] else [String.mk cur.reverse]
  | c :: rest, cur =>
    if c.isWhitespace then
      if cur.isEmpty then pySplitGo rest []
      else String.mk cur.reverse :: pySplitGo rest []
    else pySplitGo rest (c :: cur)

/-- Model of Python `str.split()` with no argument: split on runs of
whitespace, ignoring leading and trailing whitespace. -/
def pySplit (s : String) : List String :=
  pySplitGo s.toList []

/-- Greatest element of a list, as Python `max` on a non-empty list; on the
empty list (never reached by the source) it returns 0. -/
def maxList : List ℚ → ℚ
  | [] => 0
  | [x] => x
  | x :: y :: rest => max x (maxList (y :: rest))

namespace Scorer

/-! Model of `src/scorer.py`, class `UnifiedScorer`. -/

/-- Class attribute `UnifiedScorer.must_reject = -20`. -/
def must_reject : ℚ := -20

/-- Class attribute `UnifiedScorer.must_accept = +20`. -/
def must_accept : ℚ := 20

/-- Class attribute `UnifiedScorer.may_reject = -1`. -/
def may_reject : ℚ := -1

/-- Class attribute `UnifiedScorer.may_accept = +1`. -/
def may_accept : ℚ := 1

/-- Class attribute `UnifiedScorer.not_sure = 0`. -/
def not_sure : ℚ := 0

/-- Class attribute `UnifiedScorer.final_pos_score = 1.0`. -/
def final_pos_score : ℚ := 1

/-- Class attribute `UnifiedScorer.final_neg_score = -1.0`. -/
def final_neg_score : ℚ := -1

/-- Accumulator pass of `re.findall(r'(\d+)', s)`: collects the maximal runs
of digits, left to right (`cur` holds the digits of the current run in
reverse).  Python `\d` also matches non-ASCII decimal digits; the model uses
ASCII digits, which is exact on the inputs considered here. -/
def digitRunsGo : List Char → List Char → List String
  | [], cur => if cur.isEmpty then [] else [String.mk cur.reverse]
  | c :: rest, cur =>
    if c.isDigit then digitRunsGo rest (c :: cur)
    else if cur.isEmpty then digitRunsGo rest []
    else String.mk cur.reverse :: digitRunsGo rest []

/-- Model of `re.findall(r'(\d+)', s)`. -/
def digitFindall (s : String) : List String :=
  digitRunsGo s.toList []

/-- Try to match the regex `https?://[^ ]+` at the head of `cs`; on success
return the matched characters and the remaining input. -/
def matchUrlAt (cs : List Char) : Option (List Char × List Char) :=
  let tryPfx := fun (pfx : List Char) =>
    if cs.take pfx.length = pfx then
      let after := cs.drop pfx.length
      let run := after.takeWhile (fun c => c ≠ ' ')
      if run.isEmpty then none
      else some (pfx ++ run, after.drop run.length)
    else none
  match tryPfx "https://".toList with
  | some r => some r
  | none => tryPfx "http://".toList

/-- Scanning pass of `re.findall(r'(https?://[^ ]+)', s)`: at each position
try to match, consume the match or advance one character.  Fuel bounds the
number of steps; `fuel = cs.length` always suffices since every step consumes
at least one character. -/
def urlFindallGo : Nat → List Char → List String
  | 0, _ => []
  | _, [] => []
  | fuel + 1, c :: rest =>
    match matchUrlAt (c :: rest) with
    | some (m, after) => String.mk m :: urlFindallGo fuel after
    | none => urlFindallGo fuel rest

/-- Model of `re.findall(r'(https?://[^ ]+)', s)`. -/
def urlFindall (s : String) : List String :=
  urlFindallGo s.toList.length s.toList

/-- The two compiled `UnifiedScorer.copy_patterns`, as match extractors. -/
def copy_patterns : List (String → List String) :=
  [digitFindall, urlFindall]

/-- Loop body of `UnifiedScorer.copy_score` for one pattern: compare the two
match sets; `is_aligned = len(src_toks) == len(tgt_toks) == len(src_toks &
tgt_toks)`; aligned sets add `2 * may_accept * len(src_toks)`, otherwise add
`must_reject`. -/
def patContribution (srcM tgtM : List String) : ℚ :=
  let src_toks := srcM.toFinset
  let tgt_toks := tgtM.toFinset
  if src_toks.card = tgt_toks.card ∧ tgt_toks.card = (src_toks ∩ tgt_toks).card then
    2 * may_accept * src_toks.card
  else
    must_reject

/-- Model of `UnifiedScorer.copy_score`. -/
def copy_score (src tgt : String) : ℚ :=
  copy_patterns.foldl (fun score pat => score + patContribution (pat src) (pat tgt)) 0

/-- Model of `UnifiedScorer.charlen_score`: character-length ratio
`(1+len(src))/(1+len(tgt))`, `not_sure` inside `[0.33, 3.0]`, else
`must_reject`. -/
def charlen_score (src tgt : String) : ℚ :=
  let ratio : ℚ := (1 + src.length) / (1 + tgt.length)
  if 33/100 ≤ ratio ∧ ratio ≤ 3 then not_sure else must_reject

/-- Model of `UnifiedScorer.toklen_score`: same ratio logic on whitespace
token counts. -/
def toklen_score (src tgt : String) : ℚ :=
  let ratio : ℚ := (1 + (pySplit src).length) / (1 + (pySplit tgt).length)
  if 33/100 ≤ ratio ∧ ratio ≤ 3 then not_sure else must_reject

/-- Python `c.isalpha()` restricted to code points below 256 (the only place
the source applies it): ASCII letters plus the Latin-1 alphabetic code
points. -/
def latin1IsAlpha (c : Char) : Bool :=
  (('a' ≤ c ∧ c ≤ 'z') ∨ ('A' ≤ c ∧ c ≤ 'Z') ∨
    c.toNat = 0xAA ∨ c.toNat = 0xB5 ∨ c.toNat = 0xBA ∨
    (0xC0 ≤ c.toNat ∧ c.toNat ≤ 0xD6) ∨
    (0xD8 ≤ c.toNat ∧ c.toNat ≤ 0xF6) ∨
    (0xF8 ≤ c.toNat ∧ c.toNat ≤ 0xFF) : Bool)

/-- Model of `UnifiedScorer.ascii_ratio_score`: compare the counts (plus one)
of non-alphabetic characters with code point below 256 on each side. -/
def ascii_ratio_score (src tgt : String) : ℚ :=
  let src_ct : ℚ := 1 + (src.toList.countP (fun c => decide (c.toNat < 256) && ! latin1IsAlpha c))
  let tgt_ct : ℚ := 1 + (tgt.toList.countP (fun c => decide (c.toNat < 256) && ! latin1IsAlpha c))
  if 33/100 ≤ src_ct / tgt_ct ∧ src_ct / tgt_ct ≤ 3 then may_accept else must_reject

/-- The fixed vocabulary of cheap-scorer flags accepted by
`UnifiedScorer.__init__` (its `mapping` dict). -/
inductive Flag where
  | charlen
  | toklen
  | copypatn
  | ascii
deriving DecidableEq, Repr

/-- Dispatch of `UnifiedScorer.__init__`'s `mapping` from a flag to its bound
method. -/
def cheapScorer : Flag → String → String → ℚ
  | .charlen => charlen_score
  | .toklen => toklen_score
  | .copypatn => copy_score
  | .ascii => ascii_ratio_score

/-- State of a constructed `UnifiedScorer`: the selected cheap scorers in
configured order and the optional final scorer. -/
structure UnifiedScorer where
  flags : List Flag
  finalScorer : Option (String → String → ℚ)

/-- The accumulation loop of `UnifiedScorer.score`: add each cheap scorer's
output to `tot` in order and break as soon as `tot >= must_accept` or
`tot <= must_reject`; returns the final `tot_score`. -/
def runCheap : List Flag → String → String → ℚ → ℚ
  | [], _, _, tot => tot
  | f :: fs, src, tgt, tot =>
    let tot2 := tot + cheapScorer f src tgt
    if must_accept ≤ tot2 ∨ tot2 ≤ must_reject then tot2
    else runCheap fs src tgt tot2

/-- Model of `UnifiedScorer.score`.  The `assert final_neg_score <=
final_score <= final_pos_score` on the final scorer's output is modelled by
returning `none` (a raised `AssertionError`) when it fails. -/
def UnifiedScorer.score (u : UnifiedScorer) (src tgt : String) : Option ℚ :=
  let tot_score := runCheap u.flags src tgt 0
  if must_accept ≤ tot_score then some final_pos_score
  else if tot_score ≤ must_reject then some final_neg_score
  else
    match u.finalScorer with
    | some f =>
      if final_neg_score ≤ f src tgt ∧ f src tgt ≤ final_pos_score then some (f src tgt)
      else none
    | none => some not_sure

/-- Partial sums of the cheap-scorer outputs in configured order: the sum of
the first `k` outputs. -/
def cheapPartial (fs : List Flag) (src tgt : String) (k : Nat) : ℚ :=
  ((fs.take k).map (fun f => cheapScorer f src tgt)).sum

end Scorer

namespace Realigner

/-! Model of `src/realigner.py` (and the older `src/scratch/realign.old.py`):
the document rematching engine. -/

/-- A candidate pair entry of the `scores` dict: `((src_sid, tgt_sid), score)`. -/
abbrev ScoredPair := (String × String) × ℚ

/-- Descending order on candidate pairs by score, the key order of
`sorted(items, key=lambda x: x[1], reverse=True)`. -/
def scoreRel (a b : ScoredPair) : Prop := b.2 ≤ a.2

instance : DecidableRel scoreRel := fun a b => inferInstanceAs (Decidable (b.2 ≤ a.2))

instance : IsTotal ScoredPair scoreRel := ⟨fun a b => le_total b.2 a.2⟩

instance : IsTrans ScoredPair scoreRel := ⟨fun _ _ _ hab hbc => le_trans hbc hab⟩

/-- Python's `sorted` is a stable sort; on the same key order any two stable
sorts agree elementwise, so the stable `List.insertionSort` models it
exactly. -/
def sortPairsDesc (items : List ScoredPair) : List ScoredPair :=
  items.insertionSort scoreRel

/-- The greedy matching loop shared by `re_align_segs` and the old `rematch`:
walk the sorted list and accept a pair iff neither its source id is a key of
`fwd_matching` (`srcs`) nor its target id a key of `rev_matching` (`tgts`).
The returned list is `fwd_matching.items()` in insertion order. -/
def greedyMatch : List ScoredPair → List String → List String → List ScoredPair
  | [], _, _ => []
  | e :: rest, srcs, tgts =>
    if e.1.1 ∈ srcs ∨ e.1.2 ∈ tgts then greedyMatch rest srcs tgts
    else e :: greedyMatch rest (e.1.1 :: srcs) (e.1.2 :: tgts)

/-- Threshold filter and sort and greedy walk of `re_align_segs` (lines
73-79), as a function of the already-computed candidate pair scores. -/
def rematch_core (scores : List ScoredPair) (threshold : ℚ) : List ScoredPair :=
  greedyMatch (sortPairsDesc (scores.filter (fun e => threshold ≤ e.2))) [] []

/-- Model of `ltfreader.Doc` as consumed by the engine: a document id and the
items of its ordered segment mapping `segs` (an `OrderedDict`, so segment ids
are unique and order is insertion order). -/
structure Doc where
  doc_id : String
  segs : List (String × String)
deriving DecidableEq

/-- Model of `realigner.Alignment`. -/
structure Alignment where
  src_id : String
  tgt_id : String
  alignments : List (List String × List String × ℚ)
deriving DecidableEq

/-- The `scores` dict of `re_align_segs`, keyed by
`itertools.product(srcs, tgts)` in iteration order.  Since segment ids are
unique within each document the dict never overwrites and its items are
exactly this product list. -/
def pairScores (scorer : String → String → ℚ) (src_doc tgt_doc : Doc) : List ScoredPair :=
  src_doc.segs.foldr
    (fun s acc => (tgt_doc.segs.map (fun t => ((s.1, t.1), scorer s.2 t.2))) ++ acc) []

/-- Model of `re_align_segs`.  The scorer argument is the total scoring
function (`scorer.score`); `None` is returned iff `fwd_matching` is empty. -/
def re_align_segs (scorer : String → String → ℚ) (src_doc eng_doc : Doc)
    (threshold : ℚ) : Option Alignment :=
  let fwd_matching := rematch_core (pairScores scorer src_doc eng_doc) threshold
  if fwd_matching.isEmpty then none
  else
    some { src_id := src_doc.doc_id, tgt_id := eng_doc.doc_id,
           alignments := fwd_matching.map (fun e => ([e.1.1], [e.1.2], e.2)) }

end Realigner

namespace OldRealign

/-! Model of `src/scratch/realign.old.py`, function `rematch`. -/

/-- Model of `realign.old.Document`: the accumulated `scores_map` items in
insertion order (`src_ids`/`tgt_ids` only feed debug logging). -/
structure Document where
  doc_id : String
  scores_map : List Realigner.ScoredPair

/-- One record of the returned `AlignedDoc`: `Match(src, tgt, score)`. -/
abbrev Match := String × String × ℚ

/-- Model of `rematch`: sort all pairs by score descending, then drop pairs
below the (optional) threshold, then run the same greedy walk. -/
def rematch (doc : Document) (threshold : Option ℚ) : List Match :=
  let items := Realigner.sortPairsDesc doc.scores_map
  let items := match threshold with
    | some t => items.filter (fun e => t ≤ e.2)
    | none => items
  (Realigner.greedyMatch items [] []).map (fun e => (e.1.1, e.1.2, e.2))

end OldRealign

namespace Transcorer

/-! Model of `src/transcorer.py`, class `TranScorer` (with the translation
tables and preprocessors of `src/ttab.py` it wraps). -/

/-- A translation probability table (`ttab.fwd` / `ttab.inv`): a dict from a
token to its dict of candidate translations with probabilities.  Inner and
outer lists model Python dicts, so keys are unique and order is insertion
order. -/
abbrev TTab := List (String × List (String × ℚ))

/-- Python `dict.get(tok)`: the value of the first (unique) matching key. -/
def dictGet (tt : TTab) (tok : String) : Option (List (String × ℚ)) :=
  (tt.find? (fun kv => kv.1 = tok)).map (fun kv => kv.2)

/-- The evidence combiner selected by `TranScorer.__init__`'s `combine`
argument: Python `sum` or `max` over a non-empty list. -/
inductive Combiner where
  | sum
  | max
deriving DecidableEq

/-- Apply the combiner (only ever reached on non-empty `cand_scores`). -/
def Combiner.apply : Combiner → List ℚ → ℚ
  | .sum, l => l.sum
  | .max, l => maxList l

/-- Model of `TranScorer._translation_evidence`.  `if not probs` in Python is
true both when the token is absent and when its dict is empty; in either case
an out-of-vocabulary token scores 1.0 iff it occurs verbatim among the
candidate tokens.  Otherwise the combiner is applied to the probabilities of
the table entries that intersect the candidate token set (`probs.keys() &
cand_toks`), 0.0 when the intersection is empty. -/
def translation_evidence (comb : Combiner) (tok : String) (ttab : TTab)
    (cand_toks : List String) : ℚ :=
  match dictGet ttab tok with
  | none => if tok ∈ cand_toks then 1 else 0
  | some probs =>
    if probs.isEmpty then (if tok ∈ cand_toks then 1 else 0)
    else
      let cand_scores := (probs.filter (fun kv => kv.1 ∈ cand_toks)).map (fun kv => kv.2)
      if cand_scores.isEmpty then 0 else comb.apply cand_scores

/-- Model of `ttab.Preprocessor.__call__` without a morfessor model:
optionally lowercase, then whitespace-tokenize. -/
def preprocess (lowercase : Bool) (sentence : String) : List String :=
  pySplit (if lowercase then sentence.toLower else sentence)

/-- State of a constructed `TranScorer`: the two tables and the two
preprocessors taken from the `TTable`, and the configured combiner.
Preprocessors are kept abstract (`ttab.src_prep` may also segment into
morphemes through an external model). -/
structure TranScorer where
  src_tgt : TTab
  tgt_src : TTab
  src_prep : String → List String
  tgt_prep : String → List String
  combiner : Combiner

/-- Model of `TranScorer.score`.  Python `set(...)` is used only for
membership tests, for which the token lists themselves are used here.  The
two divisions by `len(...)` are unguarded in the source; a division by zero
(empty token list) raises `ZeroDivisionError`, modelled as `none`. -/
def TranScorer.score (sc : TranScorer) (src tgt : String) : Option ℚ :=
  let src_toks := sc.src_prep src
  let tgt_toks := sc.tgt_prep tgt
  let src_tok_usage := src_toks.map
    (fun t => translation_evidence sc.combiner t sc.src_tgt tgt_toks)
  let tgt_tok_usage := tgt_toks.map
    (fun t => translation_evidence sc.combiner t sc.tgt_src src_toks)
  if src_tok_usage.isEmpty then none
  else if tgt_tok_usage.isEmpty then none
  else
    let src_evidence := src_tok_usage.sum / src_tok_usage.length
    let tgt_evidence := tgt_tok_usage.sum / tgt_tok_usage.length
    some ((src_evidence + tgt_evidence) / 2)

/-- A translation table all of whose per-token distributions have
non-negative probabilities summing to at most 1 (true of the Giza tables the
system consumes, possibly truncated upstream). -/
def TableOk (tt : TTab) : Prop :=
  ∀ e ∈ tt, (∀ p ∈ e.2, 0 ≤ p.2) ∧ (e.2.map (fun p => p.2)).sum ≤ 1

instance : DecidablePred TableOk := fun tt =>
  inferInstanceAs (Decidable (∀ e ∈ tt, (∀ p ∈ e.2, 0 ≤ p.2) ∧ (e.2.map (fun p => p.2)).sum ≤ 1))

end Transcorer

namespace Utils

/-! Model of `src/utils.py` (`scorer_eval`) and `src/scorer.py` (`test`): the
evaluation harness.  `random.shuffle` is modelled by an oracle `shuffle`
taking the index of the loop iteration, so every run of the harness is one
choice of oracle. -/

/-- Python dict insertion: overwrite in place when the key exists, else
append. -/
def dinsert (d : List (String × ℚ)) (k : String) (v : ℚ) : List (String × ℚ) :=
  if d.any (fun kv => kv.1 = k) then d.map (fun kv => if kv.1 = k then (k, v) else kv)
  else d ++ [(k, v)]

/-- Python dict lookup `d[k]` (keys built by `dinsert` are unique; the
default 0 is never reached by the harness, which only looks up present
keys). -/
def dlookup (d : List (String × ℚ)) (k : String) : ℚ :=
  ((d.find? (fun kv => kv.1 = k)).map (fun kv => kv.2)).getD 0

/-- The negative-sampling loop of the harness: for the `i`-th positive pair
`(src, pos_tgt)`, the distractor targets are the other positives' targets
(`t != pos_tgt`), shuffled and cut to `neg_sample_count`; each contributes a
scored pair `(src, neg_tgt)`, in loop order. -/
def negSampledPairs (shuffle : Nat → List String → List String)
    (pos_exs : List (String × String)) (neg_sample_count : Nat) : List (String × String) :=
  (pos_exs.enum.map (fun ip =>
    ((shuffle ip.1 ((pos_exs.map (fun p => p.2)).filter (fun t => t ≠ ip.2.2))).take
        neg_sample_count).map (fun t => (ip.2.1, t)))).flatten

/-- Whether `error_tgts[src]` is non-empty at the end of the sampling loop:
some iteration for this `src` sampled a distractor scoring strictly above
`pos_scores[src]`. -/
def errFlag (shuffle : Nat → List String → List String) (scorer : String → String → ℚ)
    (pos_exs : List (String × String)) (neg_sample_count : Nat)
    (pos_scores : List (String × ℚ)) (src : String) : Bool :=
  pos_exs.enum.any (fun ip =>
    ip.2.1 = src &&
      ((shuffle ip.1 ((pos_exs.map (fun p => p.2)).filter (fun t => t ≠ ip.2.2))).take
          neg_sample_count).any
        (fun t => decide (dlookup pos_scores src < scorer src t)))

/-- Errors raised by `scorer_eval`: the `assert pos_count > neg_sample_count`
failing, or the `ZeroDivisionError` of `neg_error / neg_count` when no
negative was sampled. -/
inductive EvalError where
  | assertFail
  | zeroDiv
deriving DecidableEq

/-- The deterministic results of one `scorer_eval` run (given the shuffle
oracle): the dict values `pos_scores.values()`, the sampled negative scores
in loop order, and the error count and returned error percentage. -/
structure EvalStats where
  pos_score_values : List ℚ
  neg_scores : List ℚ
  err_count : Nat
  error_percent : ℚ
deriving DecidableEq

/-- Model of `utils.scorer_eval` up to its return value.  Failure points in
source order: the assertion, then (after all scoring) the division by
`neg_count`.  The division by `len(pos_errors)` cannot fail: the assertion
guarantees `pos_exs` is non-empty, so the `pos_scores` dict is non-empty. -/
def scorer_eval (shuffle : Nat → List String → List String)
    (scorer : String → String → ℚ) (pos_exs : List (String × String))
    (neg_sample_count : Nat) : Except EvalError EvalStats :=
  if pos_exs.length ≤ neg_sample_count then .error .assertFail
  else
    let pos_scores := pos_exs.foldl (fun d p => dinsert d p.1 (scorer p.1 p.2)) []
    let neg_scores := (negSampledPairs shuffle pos_exs neg_sample_count).map
      (fun p => scorer p.1 p.2)
    if neg_scores.isEmpty then .error .zeroDiv
    else
      let err_count := pos_exs.countP
        (fun p => errFlag shuffle scorer pos_exs neg_sample_count pos_scores p.1)
      .ok { pos_score_values := pos_scores.map (fun kv => kv.2),
            neg_scores := neg_scores,
            err_count := err_count,
            error_percent := 100 * err_count / pos_exs.length }

/-- Errors raised by `scorer.test`: its first assertion
(`pos_count > neg_sample_count`), its second assertion
(`len(pos_scores) == pos_count`, i.e. unique source sentences), or the
`ZeroDivisionError` of `neg_error / neg_count`. -/
inductive TestError where
  | assertPosCount
  | assertUniqueSrc
  | zeroDiv
deriving DecidableEq

/-- Model of `scorer.test`, which repeats `scorer_eval`'s logic with an
additional uniqueness assertion placed after the positive pairs are
scored. -/
def test (shuffle : Nat → List String → List String)
    (scorer : String → String → ℚ) (pos_exs : List (String × String))
    (neg_sample_count : Nat) : Except TestError EvalStats :=
  if pos_exs.length ≤ neg_sample_count then .error .assertPosCount
  else
    let pos_scores := pos_exs.foldl (fun d p => dinsert d p.1 (scorer p.1 p.2)) []
    if pos_scores.length ≠ pos_exs.length then .error .assertUniqueSrc
    else
      let neg_scores := (negSampledPairs shuffle pos_exs neg_sample_count).map
        (fun p => scorer p.1 p.2)
      if neg_scores.isEmpty then .error .zeroDiv
      else
        let err_count := pos_exs.countP
          (fun p => errFlag shuffle scorer pos_exs neg_sample_count pos_scores p.1)
        .ok { pos_score_values := pos_scores.map (fun kv => kv.2),
              neg_scores := neg_scores,
              err_count := err_count,
              error_percent := 100 * err_count / pos_exs.length }

/-- The `pos_errors` list of the harness: squared deviation of each positive
score from 1.0, clamped above at 1.0 before squaring
(`(1.0 - min(1.0, v)) ** 2`). -/
def pos_errors (vs : List ℚ) : List ℚ :=
  vs.map (fun v => (1 - min 1 v) ^ 2)

/-- The accumulated `neg_error` of the harness: sum over sampled negative
scores of `max(0, pred_score) ** 2` (clamped below at 0.0 before
squaring). -/
def neg_error (vs : List ℚ) : ℚ :=
  (vs.map (fun v => (max 0 v) ^ 2)).sum

/-- The reported positive-side statistic
`pos_mse = (sum(pos_errors) / len(pos_errors)) ** 0.5`. -/
noncomputable def pos_mse (vs : List ℚ) : ℝ :=
  Real.sqrt (((pos_errors vs).sum / (pos_errors vs).length : ℚ))

/-- The reported negative-side statistic
`neg_mse = (neg_error / neg_count) ** 0.5` (`neg_count = len(vs)`). -/
noncomputable def neg_mse (vs : List ℚ) : ℝ :=
  Real.sqrt ((neg_error vs / vs.length : ℚ))

/-- The mean of the squared deviations of the positive scores from 1.0, each
clamped above at 1.0 before squaring — the quantity the specification says is
reported on the positive side. -/
def posMeanSqDev (vs : List ℚ) : ℚ :=
  (vs.map (fun v => (1 - min 1 v) ^ 2)).sum / vs.length

/-- The mean of the squared deviations of the distractor scores from 0.0,
each clamped below at 0.0 before squaring — the quantity the specification
says is reported on the negative side. -/
def negMeanSqDev (vs : List ℚ) : ℚ :=
  (vs.map (fun v => (max 0 v) ^ 2)).sum / vs.length

end Utils

/-! Concrete inputs used by the witnesses and counterexamples below. -/

/-- A constant scorer used as a concrete scoring function. -/
def exConstScorer : String → String → ℚ := fun _ _ => 1

/-- A one-segment source document. -/
def exDocSrc : Realigner.Doc := { doc_id := "doc1", segs := [("s1", "hello")] }

/-- A one-segment target document. -/
def exDocTgt : Realigner.Doc := { doc_id := "doc2", segs := [("t1", "world")] }

/-- The alignment produced for the two one-segment documents at threshold 0. -/
def exAlign : Realigner.Alignment :=
  { src_id := "doc1", tgt_id := "doc2", alignments := [(["s1"], ["t1"], 1)] }

/-- A two-pair score set used to witness threshold monotonicity. -/
def exScores : List Realigner.ScoredPair := [(("s1", "t1"), 5), (("s2", "t2"), 1)]

/-- A `UnifiedScorer` configured with the character-length flag and no final
scorer. -/
def exUnified : Scorer.UnifiedScorer := { flags := [Scorer.Flag.charlen], finalScorer := none }

/-- A well-formed one-entry translation scorer (probabilities sum to 1/2). -/
def exTranScorer : Transcorer.TranScorer :=
  { src_tgt := [("x", [("a", 1/2)])], tgt_src := [],
    src_prep := pySplit, tgt_prep := pySplit, combiner := Transcorer.Combiner.sum }

/-- A translation scorer whose single source token has three candidate
translations of probability 0.9 each (each entry a legitimate probability,
summing to 2.7): the table reachable from a Giza probability file that makes
`TranScorer.score` exceed 1. -/
def exTranScorerHigh : Transcorer.TranScorer :=
  { src_tgt := [("x", [("a", 9/10), ("b", 9/10), ("c", 9/10)])], tgt_src := [],
    src_prep := pySplit, tgt_prep := pySplit, combiner := Transcorer.Combiner.sum }

/-! Helper lemmas about the greedy matching walk. -/

theorem greedyMatch_append (l1 l2 : List Realigner.ScoredPair) :
    ∀ srcs tgts, ∃ rest,
      Realigner.greedyMatch (l1 ++ l2) srcs tgts =
        Realigner.greedyMatch l1 srcs tgts ++ rest := by
  induction l1 with
  | nil =>
    intro srcs tgts
    exact ⟨Realigner.greedyMatch l2 srcs tgts, by simp [Realigner.greedyMatch]⟩
  | cons e l1 ih =>
    intro srcs tgts
    by_cases hc : e.1.1 ∈ srcs ∨ e.1.2 ∈ tgts
    · obtain ⟨rest, hrest⟩ := ih srcs tgts
      exact ⟨rest, by simp [Realigner.greedyMatch, hc, hrest]⟩
    · obtain ⟨rest, hrest⟩ := ih (e.1.1 :: srcs) (e.1.2 :: tgts)
      exact ⟨rest, by simp [Realigner.greedyMatch, hc, hrest]⟩

theorem greedyMatch_claims (items : List Realigner.ScoredPair) :
    ∀ srcs tgts,
      (∀ e ∈ Realigner.greedyMatch items srcs tgts, e.1.1 ∉ srcs ∧ e.1.2 ∉ tgts) ∧
      ((Realigner.greedyMatch items srcs tgts).map (fun e => e.1.1)).Nodup ∧
      ((Realigner.greedyMatch items srcs tgts).map (fun e => e.1.2)).Nodup := by
  induction items with
  | nil => intro srcs tgts; simp [Realigner.greedyMatch]
  | cons e rest ih =>
    intro srcs tgts
    by_cases hc : e.1.1 ∈ srcs ∨ e.1.2 ∈ tgts
    · simpa [Realigner.greedyMatch, hc] using ih srcs tgts
    · have ih2 := ih (e.1.1 :: srcs) (e.1.2 :: tgts)
      have hstep : Realigner.greedyMatch (e :: rest) srcs tgts =
          e :: Realigner.greedyMatch rest (e.1.1 :: srcs) (e.1.2 :: tgts) := by
        simp [Realigner.greedyMatch, hc]
      have hns : e.1.1 ∉ srcs := fun hs => hc (Or.inl hs)
      have hnt : e.1.2 ∉ tgts := fun ht => hc (Or.inr ht)
      rw [hstep]
      refine ⟨?_, ?_, ?_⟩
      · intro x hx
        rcases List.mem_cons.mp hx with h | h
        · exact h ▸ ⟨hns, hnt⟩
        · have hmem := ih2.1 x h
          exact ⟨fun hs => hmem.1 (List.mem_cons_of_mem _ hs),
                 fun ht => hmem.2 (List.mem_cons_of_mem _ ht)⟩
      · rw [List.map_cons, List.nodup_cons]
        refine ⟨fun hmem => ?_, ih2.2.1⟩
        obtain ⟨x, hx, hfx⟩ := List.mem_map.mp hmem
        exact (ih2.1 x hx).1 (hfx ▸ List.mem_cons_self _ _)
      · rw [List.map_cons, List.nodup_cons]
        refine ⟨fun hmem => ?_, ih2.2.2⟩
        obtain ⟨x, hx, hfx⟩ := List.mem_map.mp hmem
        exact (ih2.1 x hx).2 (hfx ▸ List.mem_cons_self _ _)

theorem countP_le_one_of_map_nodup {α β : Type} [DecidableEq β] (f : α → β) (l : List α)
    (h : (l.map f).Nodup) (b : β) : l.countP (fun x => decide (f x = b)) ≤ 1 := by
  induction l with
  | nil => simp
  | cons x l ih =>
    rw [List.map_cons, List.nodup_cons] at h
    rw [List.countP_cons]
    by_cases hx : f x = b
    · have hzero : l.countP (fun x => decide (f x = b)) = 0 := by
        rw [List.countP_eq_zero]
        intro y hy
        simp only [decide_eq_true_eq]
        intro hyb
        have hfxy : f x = f y := by rw [hx, hyb]
        exact h.1 (hfxy ▸ List.mem_map_of_mem f hy)
      simp [hx, hzero]
    · simpa [hx] using ih h.2

/-! Helper lemmas about the stable descending sort and threshold filter. -/

theorem sortPairsDesc_sorted (l : List Realigner.ScoredPair) :
    List.Sorted Realigner.scoreRel (Realigner.sortPairsDesc l) :=
  List.sorted_insertionSort Realigner.scoreRel l

theorem sortPairsDesc_perm (l : List Realigner.ScoredPair) :
    (Realigner.sortPairsDesc l).Perm l :=
  List.perm_insertionSort Realigner.scoreRel l

theorem orderedInsert_eq_cons_of_forall (x : Realigner.ScoredPair)
    (l : List Realigner.ScoredPair) (h : ∀ z ∈ l, Realigner.scoreRel x z) :
    List.orderedInsert Realigner.scoreRel x l = x :: l := by
  cases l with
  | nil => rfl
  | cons z zs => simp [List.orderedInsert, h z (List.mem_cons_self _ _)]

theorem filter_orderedInsert (p : Realigner.ScoredPair → Bool) (x : Realigner.ScoredPair) :
    ∀ l : List Realigner.ScoredPair, List.Sorted Realigner.scoreRel l →
      (List.orderedInsert Realigner.scoreRel x l).filter p =
        if p x then List.orderedInsert Realigner.scoreRel x (l.filter p) else l.filter p := by
  intro l
  induction l with
  | nil =>
    intro _
    by_cases hpx : p x <;> simp [List.orderedInsert, hpx]
  | cons y ys ih =>
    intro hs
    have hsy := (List.sorted_cons.mp hs).1
    have hsys := (List.sorted_cons.mp hs).2
    by_cases hxy : Realigner.scoreRel x y
    · have hins0 : List.orderedInsert Realigner.scoreRel x (y :: ys) = x :: y :: ys := by
        simp [List.orderedInsert, hxy]
      rw [hins0]
      by_cases hpx : p x
      · rw [if_pos hpx, List.filter_cons_of_pos hpx]
        have hall : ∀ z ∈ (y :: ys).filter p, Realigner.scoreRel x z := by
          intro z hz
          rcases List.mem_cons.mp (List.mem_of_mem_filter hz) with h | h
          · exact h ▸ hxy
          · exact le_trans (hsy z h) hxy
        rw [orderedInsert_eq_cons_of_forall x _ hall]
      · rw [if_neg hpx, List.filter_cons_of_neg hpx]
    · have hins : List.orderedInsert Realigner.scoreRel x (y :: ys) =
          y :: List.orderedInsert Realigner.scoreRel x ys := by
        simp [List.orderedInsert, hxy]
      rw [hins]
      by_cases hpx : p x
      · by_cases hpy : p y
        · rw [List.filter_cons_of_pos hpy, ih hsys, if_pos hpx, if_pos hpx,
            List.filter_cons_of_pos hpy]
          have hins2 : List.orderedInsert Realigner.scoreRel x (y :: ys.filter p) =
              y :: List.orderedInsert Realigner.scoreRel x (ys.filter p) := by
            simp [List.orderedInsert, hxy]
          rw [hins2]
        · rw [List.filter_cons_of_neg hpy, ih hsys, if_pos hpx, if_pos hpx,
            List.filter_cons_of_neg hpy]
      · by_cases hpy : p y
        · rw [List.filter_cons_of_pos hpy, ih hsys, if_neg hpx, if_neg hpx,
            List.filter_cons_of_pos hpy]
        · rw [List.filter_cons_of_neg hpy, ih hsys, if_neg hpx, if_neg hpx,
            List.filter_cons_of_neg hpy]

theorem sortPairsDesc_filter (p : Realigner.ScoredPair → Bool) (l : List Realigner.ScoredPair) :
    Realigner.sortPairsDesc (l.filter p) = (Realigner.sortPairsDesc l).filter p := by
  induction l with
  | nil => rfl
  | cons x xs ih =>
    show Realigner.sortPairsDesc ((x :: xs).filter p) =
      (List.orderedInsert Realigner.scoreRel x (Realigner.sortPairsDesc xs)).filter p
    rw [filter_orderedInsert p x _ (sortPairsDesc_sorted xs)]
    by_cases hpx : p x
    · rw [List.filter_cons_of_pos hpx, if_pos hpx]
      show List.orderedInsert Realigner.scoreRel x (Realigner.sortPairsDesc (xs.filter p)) = _
      rw [ih]
    · rw [List.filter_cons_of_neg hpx, if_neg hpx, ih]

theorem sorted_filter_ge_exists_append (T : ℚ) :
    ∀ l : List Realigner.ScoredPair, List.Sorted Realigner.scoreRel l →
      ∃ l2, l = l.filter (fun e => decide (T ≤ e.2)) ++ l2 := by
  intro l
  induction l with
  | nil => exact fun _ => ⟨[], rfl⟩
  | cons x xs ih =>
    intro hs
    by_cases hx : T ≤ x.2
    · obtain ⟨l2, hl2⟩ := ih (List.sorted_cons.mp hs).2
      refine ⟨l2, ?_⟩
      rw [List.filter_cons_of_pos (by simpa using hx), List.cons_append]
      exact congrArg (x :: ·) hl2
    · refine ⟨x :: xs, ?_⟩
      rw [List.filter_cons_of_neg (by simpa using hx)]
      have hnil : xs.filter (fun e => decide (T ≤ e.2)) = [] := by
        rw [List.filter_eq_nil_iff]
        intro z hz
        simp only [decide_eq_true_eq]
        intro hTz
        exact hx (le_trans hTz ((List.sorted_cons.mp hs).1 z hz))
      rw [hnil, List.nil_append]

theorem greedyMatch_nil_nil_eq_nil_iff (items : List Realigner.ScoredPair) :
    Realigner.greedyMatch items [] [] = [] ↔ items = [] := by
  cases items with
  | nil => simp [Realigner.greedyMatch]
  | cons e rest => simp [Realigner.greedyMatch]

theorem rematch_core_eq_nil_iff (scores : List Realigner.ScoredPair) (th : ℚ) :
    Realigner.rematch_core scores th = [] ↔ ∀ pr ∈ scores, pr.2 < th := by
  unfold Realigner.rematch_core
  rw [greedyMatch_nil_nil_eq_nil_iff]
  constructor
  · intro h pr hpr
    have hfil : scores.filter (fun e => decide (th ≤ e.2)) = [] := by
      have hp := sortPairsDesc_perm (scores.filter (fun e => decide (th ≤ e.2)))
      rw [h] at hp
      exact (List.Perm.nil_eq hp).symm
    rw [List.filter_eq_nil_iff] at hfil
    have := hfil pr hpr
    simp only [decide_eq_true_eq] at this
    exact lt_of_not_le this
  · intro h
    have hfil : scores.filter (fun e => decide (th ≤ e.2)) = [] := by
      rw [List.filter_eq_nil_iff]
      intro a ha
      simp only [decide_eq_true_eq]
      exact not_le.mpr (h a ha)
    rw [hfil]
    rfl

theorem rematch_core_map_nodup (scores : List Realigner.ScoredPair) (th : ℚ) :
    ((Realigner.rematch_core scores th).map (fun e => e.1.1)).Nodup ∧
    ((Realigner.rematch_core scores th).map (fun e => e.1.2)).Nodup :=
  ⟨(greedyMatch_claims _ [] []).2.1, (greedyMatch_claims _ [] []).2.2⟩

/-- C1: for every pair of documents and every threshold, the rematching
engine's output (`re_align_segs`, and likewise the old `rematch`) is
injective in both directions: each source segment id appears in at most one
match record and each target segment id appears in at most one match
record. -/
theorem claim_c1_rematch_injective :
    (∀ (scorer : String → String → ℚ) (d1 d2 : Realigner.Doc) (th : ℚ)
        (aln : Realigner.Alignment),
        Realigner.re_align_segs scorer d1 d2 th = some aln →
        (∀ sid, aln.alignments.countP (fun r => decide (sid ∈ r.1)) ≤ 1) ∧
        (∀ tid, aln.alignments.countP (fun r => decide (tid ∈ r.2.1)) ≤ 1)) ∧
    (∀ (doc : OldRealign.Document) (th : Option ℚ),
        (∀ sid, (OldRealign.rematch doc th).countP (fun m => decide (m.1 = sid)) ≤ 1) ∧
        (∀ tid, (OldRealign.rematch doc th).countP (fun m => decide (m.2.1 = tid)) ≤ 1)) := by
  constructor
  · intro scorer d1 d2 th aln h
    simp only [Realigner.re_align_segs] at h
    split at h
    · cases h
    · injection h with h
      subst h
      constructor
      · intro sid
        simp only
        rw [List.countP_map]
        have heq : ((fun r : List String × List String × ℚ => decide (sid ∈ r.1)) ∘
            (fun e : Realigner.ScoredPair => (([e.1.1], [e.1.2], e.2) :
              List String × List String × ℚ))) = fun e => decide (e.1.1 = sid) := by
          funext e
          simp [decide_eq_decide, eq_comm]
        rw [heq]
        exact countP_le_one_of_map_nodup _ _ (rematch_core_map_nodup _ th).1 sid
      · intro tid
        simp only
        rw [List.countP_map]
        have heq : ((fun r : List String × List String × ℚ => decide (tid ∈ r.2.1)) ∘
            (fun e : Realigner.ScoredPair => (([e.1.1], [e.1.2], e.2) :
              List String × List String × ℚ))) = fun e => decide (e.1.2 = tid) := by
          funext e
          simp [decide_eq_decide, eq_comm]
        rw [heq]
        exact countP_le_one_of_map_nodup _ _ (rematch_core_map_nodup _ th).2 tid
  · intro doc th
    constructor
    · intro sid
      simp only [OldRealign.rematch]
      rw [List.countP_map]
      exact countP_le_one_of_map_nodup (fun e : Realigner.ScoredPair => e.1.1) _
        (greedyMatch_claims _ [] []).2.1 sid
    · intro tid
      simp only [OldRealign.rematch]
      rw [List.countP_map]
      exact countP_le_one_of_map_nodup (fun e : Realigner.ScoredPair => e.1.2) _
        (greedyMatch_claims _ [] []).2.2 tid

/-- Witness for C1 on a concrete document pair giving one match record. -/
theorem claim_c1_witness :
    exAlign.alignments.countP (fun r => decide ("s1" ∈ r.1)) ≤ 1 :=
  (claim_c1_rematch_injective.1 exConstScorer exDocSrc exDocTgt 0 exAlign (by decide)).1 "s1"

/-- C4: `re_align_segs` returns `None` exactly when zero candidate pairs
score at or above the threshold, and a returned `Alignment` never has an
empty list of match records. -/
theorem claim_c4_none_iff :
    ∀ (scorer : String → String → ℚ) (d1 d2 : Realigner.Doc) (th : ℚ),
      (Realigner.re_align_segs scorer d1 d2 th = none ↔
        ∀ pr ∈ Realigner.pairScores scorer d1 d2, pr.2 < th) ∧
      (∀ aln, Realigner.re_align_segs scorer d1 d2 th = some aln →
        aln.alignments ≠ []) := by
  intro scorer d1 d2 th
  constructor
  · rw [← rematch_core_eq_nil_iff (Realigner.pairScores scorer d1 d2) th]
    simp only [Realigner.re_align_segs]
    split
    · next hemp => simp [List.isEmpty_iff.mp hemp]
    · next hemp =>
      rw [List.isEmpty_iff] at hemp
      simp [hemp]
  · intro aln h
    simp only [Realigner.re_align_segs] at h
    split at h
    · cases h
    · next hemp =>
      injection h with h
      subst h
      simp only [ne_eq, List.map_eq_nil_iff]
      rw [List.isEmpty_iff] at hemp
      exact hemp

/-- Witness for C4: the concrete document pair yields a non-empty record
list. -/
theorem claim_c4_witness : exAlign.alignments ≠ [] :=
  (claim_c4_none_iff exConstScorer exDocSrc exDocTgt 0).2 exAlign (by decide)

/-- C3: for a fixed set of candidate pair scores, a higher threshold produces
a subset of the matches produced at a lower threshold, and in particular no
more matches. -/
theorem claim_c3_threshold_monotone (scores : List Realigner.ScoredPair) (T1 T2 : ℚ)
    (h12 : T1 ≤ T2) :
    (∀ m ∈ Realigner.rematch_core scores T2, m ∈ Realigner.rematch_core scores T1) ∧
    (Realigner.rematch_core scores T2).length ≤ (Realigner.rematch_core scores T1).length := by
  have hff : scores.filter (fun e => decide (T2 ≤ e.2)) =
      (scores.filter (fun e => decide (T1 ≤ e.2))).filter (fun e => decide (T2 ≤ e.2)) := by
    rw [List.filter_filter]
    apply List.filter_congr
    intro x _
    by_cases h2 : T2 ≤ x.2
    · simp [h2, le_trans h12 h2]
    · simp [h2]
  have hsortfilter : Realigner.sortPairsDesc (scores.filter (fun e => decide (T2 ≤ e.2))) =
      (Realigner.sortPairsDesc (scores.filter (fun e => decide (T1 ≤ e.2)))).filter
        (fun e => decide (T2 ≤ e.2)) := by
    rw [hff, sortPairsDesc_filter]
  obtain ⟨l2, hl2⟩ := sorted_filter_ge_exists_append T2 _
    (sortPairsDesc_sorted (scores.filter (fun e => decide (T1 ≤ e.2))))
  obtain ⟨rest, hrest⟩ := greedyMatch_append
    ((Realigner.sortPairsDesc (scores.filter (fun e => decide (T1 ≤ e.2)))).filter
      (fun e => decide (T2 ≤ e.2))) l2 [] []
  have hkey : Realigner.rematch_core scores T1 = Realigner.rematch_core scores T2 ++ rest := by
    unfold Realigner.rematch_core
    rw [hsortfilter]
    conv_lhs => rw [hl2]
    exact hrest
  constructor
  · intro m hm
    rw [hkey]
    exact List.mem_append_left _ hm
  · rw [hkey]
    simp

/-- Witness for C3 on a concrete two-pair score set with thresholds 0 and 3. -/
theorem claim_c3_witness :
    (Realigner.rematch_core exScores 3).length ≤ (Realigner.rematch_core exScores 0).length :=
  (claim_c3_threshold_monotone exScores 0 3 (by norm_num)).2

/-- C9: whenever at least one candidate pair scores at or above the
threshold, `re_align_segs` returns a non-empty `Alignment` that contains a
record for a surviving pair of maximal score (the greedy walk accepts the
head of the descending-sorted list unconditionally). -/
theorem claim_c9_top_match (scorer : String → String → ℚ) (d1 d2 : Realigner.Doc) (th : ℚ)
    (h : ∃ pr ∈ Realigner.pairScores scorer d1 d2, th ≤ pr.2) :
    ∃ aln, Realigner.re_align_segs scorer d1 d2 th = some aln ∧
      aln.alignments ≠ [] ∧
      ∃ pr ∈ (Realigner.pairScores scorer d1 d2).filter (fun e => decide (th ≤ e.2)),
        (∀ q ∈ (Realigner.pairScores scorer d1 d2).filter (fun e => decide (th ≤ e.2)),
          q.2 ≤ pr.2) ∧
        ([pr.1.1], [pr.1.2], pr.2) ∈ aln.alignments := by
  obtain ⟨pr0, hpr0, hth0⟩ := h
  have hFne : (Realigner.pairScores scorer d1 d2).filter (fun e => decide (th ≤ e.2)) ≠ [] := by
    intro hnil
    have : pr0 ∈ (Realigner.pairScores scorer d1 d2).filter (fun e => decide (th ≤ e.2)) :=
      List.mem_filter.mpr ⟨hpr0, by simpa using hth0⟩
    rw [hnil] at this
    cases this
  have hSne : Realigner.sortPairsDesc
      ((Realigner.pairScores scorer d1 d2).filter (fun e => decide (th ≤ e.2))) ≠ [] := by
    intro hnil
    have hp := sortPairsDesc_perm
      ((Realigner.pairScores scorer d1 d2).filter (fun e => decide (th ≤ e.2)))
    rw [hnil] at hp
    exact hFne (List.Perm.nil_eq hp).symm
  obtain ⟨x, rest, hxr⟩ := List.exists_cons_of_ne_nil hSne
  have hxF : x ∈ (Realigner.pairScores scorer d1 d2).filter (fun e => decide (th ≤ e.2)) :=
    (sortPairsDesc_perm _).mem_iff.mp (hxr ▸ List.mem_cons_self x rest)
  have hmax : ∀ q ∈ (Realigner.pairScores scorer d1 d2).filter (fun e => decide (th ≤ e.2)),
      q.2 ≤ x.2 := by
    intro q hq
    have hqS : q ∈ Realigner.sortPairsDesc
        ((Realigner.pairScores scorer d1 d2).filter (fun e => decide (th ≤ e.2))) :=
      (sortPairsDesc_perm _).mem_iff.mpr hq
    rw [hxr] at hqS
    rcases List.mem_cons.mp hqS with hh | hh
    · exact hh ▸ le_refl _
    · have hs := sortPairsDesc_sorted
        ((Realigner.pairScores scorer d1 d2).filter (fun e => decide (th ≤ e.2)))
      rw [hxr] at hs
      exact (List.sorted_cons.mp hs).1 q hh
  have hgreedy : Realigner.rematch_core (Realigner.pairScores scorer d1 d2) th =
      x :: Realigner.greedyMatch rest [x.1.1] [x.1.2] := by
    unfold Realigner.rematch_core
    rw [hxr]
    simp [Realigner.greedyMatch]
  refine ⟨{ src_id := d1.doc_id, tgt_id := d2.doc_id,
            alignments := (x :: Realigner.greedyMatch rest [x.1.1] [x.1.2]).map
              (fun e => ([e.1.1], [e.1.2], e.2)) }, ?_, ?_, ?_⟩
  · simp only [Realigner.re_align_segs, hgreedy]
    rfl
  · simp
  · exact ⟨x, hxF, hmax, by simp⟩

/-- Witness for C9 on the concrete one-pair documents at threshold 0. -/
theorem claim_c9_witness :
    ∃ aln, Realigner.re_align_segs exConstScorer exDocSrc exDocTgt 0 = some aln ∧
      aln.alignments ≠ [] ∧
      ∃ pr ∈ (Realigner.pairScores exConstScorer exDocSrc exDocTgt).filter
          (fun e => decide ((0:ℚ) ≤ e.2)),
        (∀ q ∈ (Realigner.pairScores exConstScorer exDocSrc exDocTgt).filter
            (fun e => decide ((0:ℚ) ≤ e.2)),
          q.2 ≤ pr.2) ∧
        ([pr.1.1], [pr.1.2], pr.2) ∈ aln.alignments :=
  claim_c9_top_match exConstScorer exDocSrc exDocTgt 0
    ⟨(("s1", "t1"), 1), by decide, by decide⟩

/-- C10: the evaluation harness requires strictly more positive pairs than
the negative-sample count: both in `utils.scorer_eval` and `scorer.test` the
leading assertion fails exactly when the number of positive examples is at
most `neg_sample_count` (before anything is scored), and passes otherwise. -/
theorem claim_c10_eval_assertion (shuffle : Nat → List String → List String)
    (scorer : String → String → ℚ) (pos_exs : List (String × String))
    (neg_sample_count : Nat) :
    (Utils.scorer_eval shuffle scorer pos_exs neg_sample_count =
        .error .assertFail ↔ pos_exs.length ≤ neg_sample_count) ∧
    (Utils.test shuffle scorer pos_exs neg_sample_count =
        .error .assertPosCount ↔ pos_exs.length ≤ neg_sample_count) := by
  constructor
  · simp only [Utils.scorer_eval]
    split
    · next hle => simp [hle]
    · next hle =>
      split
      · simp [hle]
      · simp [hle]
  · simp only [Utils.test]
    split
    · next hle => simp [hle]
    · next hle =>
      split
      · simp [hle]
      · split
        · simp [hle]
        · simp [hle]

theorem runCheap_no_break (src tgt : String) :
    ∀ (fs : List Scorer.Flag) (acc : ℚ),
      (∀ k, 1 ≤ k → k < fs.length →
        Scorer.must_reject < acc + Scorer.cheapPartial fs src tgt k ∧
        acc + Scorer.cheapPartial fs src tgt k < Scorer.must_accept) →
      Scorer.runCheap fs src tgt acc = acc + Scorer.cheapPartial fs src tgt fs.length := by
  intro fs
  induction fs with
  | nil =>
    intro acc _
    simp [Scorer.runCheap, Scorer.cheapPartial]
  | cons f fs ih =>
    intro acc h
    cases fs with
    | nil =>
      simp only [Scorer.runCheap]
      split
      · simp [Scorer.cheapPartial]
      · simp [Scorer.runCheap, Scorer.cheapPartial]
    | cons g gs =>
      have h1 := h 1 (le_refl 1) (by simp)
      have hcp1 : Scorer.cheapPartial (f :: g :: gs) src tgt 1 = Scorer.cheapScorer f src tgt := by
        simp [Scorer.cheapPartial]
      rw [hcp1] at h1
      have hnb : ¬ (Scorer.must_accept ≤ acc + Scorer.cheapScorer f src tgt ∨
          acc + Scorer.cheapScorer f src tgt ≤ Scorer.must_reject) := by
        push_neg
        exact ⟨h1.2, h1.1⟩
      have hshift : ∀ k, 1 ≤ k → k < (g :: gs).length →
          Scorer.must_reject < acc + Scorer.cheapScorer f src tgt +
            Scorer.cheapPartial (g :: gs) src tgt k ∧
          acc + Scorer.cheapScorer f src tgt +
            Scorer.cheapPartial (g :: gs) src tgt k < Scorer.must_accept := by
        intro k hk1 hklen
        have hk := h (k + 1) (by omega) (by simpa using Nat.succ_lt_succ hklen)
        have hsplit : Scorer.cheapPartial (f :: g :: gs) src tgt (k + 1) =
            Scorer.cheapScorer f src tgt + Scorer.cheapPartial (g :: gs) src tgt k := by
          simp [Scorer.cheapPartial]
        rw [hsplit] at hk
        constructor
        · linarith [hk.1]
        · linarith [hk.2]
      have ih2 := ih (acc + Scorer.cheapScorer f src tgt) hshift
      have hstep : Scorer.runCheap (f :: g :: gs) src tgt acc =
          Scorer.runCheap (g :: gs) src tgt (acc + Scorer.cheapScorer f src tgt) := by
        show (if Scorer.must_accept ≤ acc + Scorer.cheapScorer f src tgt ∨
            acc + Scorer.cheapScorer f src tgt ≤ Scorer.must_reject then
            acc + Scorer.cheapScorer f src tgt
          else Scorer.runCheap (g :: gs) src tgt (acc + Scorer.cheapScorer f src tgt)) = _
        rw [if_neg hnb]
      rw [hstep, ih2]
      have hlast : Scorer.cheapPartial (f :: g :: gs) src tgt (f :: g :: gs).length =
          Scorer.cheapScorer f src tgt +
            Scorer.cheapPartial (g :: gs) src tgt (g :: gs).length := by
        simp [Scorer.cheapPartial]
      rw [hlast]
      ring

theorem runCheap_stops (src tgt : String) :
    ∀ (fs : List Scorer.Flag) (acc : ℚ) (k0 : Nat), 1 ≤ k0 → k0 ≤ fs.length →
      (∀ j, 1 ≤ j → j < k0 →
        Scorer.must_reject < acc + Scorer.cheapPartial fs src tgt j ∧
        acc + Scorer.cheapPartial fs src tgt j < Scorer.must_accept) →
      (Scorer.must_accept ≤ acc + Scorer.cheapPartial fs src tgt k0 ∨
        acc + Scorer.cheapPartial fs src tgt k0 ≤ Scorer.must_reject) →
      Scorer.runCheap fs src tgt acc = acc + Scorer.cheapPartial fs src tgt k0 := by
  intro fs
  induction fs with
  | nil =>
    intro acc k0 hk1 hklen _ _
    exfalso
    simp only [List.length_nil, Nat.le_zero] at hklen
    omega
  | cons f fs ih =>
    intro acc k0 hk1 hklen hin hstop
    have hcp1 : Scorer.cheapPartial (f :: fs) src tgt 1 = Scorer.cheapScorer f src tgt := by
      simp [Scorer.cheapPartial]
    rcases Nat.eq_or_lt_of_le hk1 with he | hlt
    · rw [← he] at hstop ⊢
      rw [hcp1] at hstop ⊢
      show (if Scorer.must_accept ≤ acc + Scorer.cheapScorer f src tgt ∨
          acc + Scorer.cheapScorer f src tgt ≤ Scorer.must_reject then
          acc + Scorer.cheapScorer f src tgt
        else Scorer.runCheap fs src tgt (acc + Scorer.cheapScorer f src tgt)) =
        acc + Scorer.cheapScorer f src tgt
      rw [if_pos hstop]
    · have h1 := hin 1 (le_refl 1) hlt
      rw [hcp1] at h1
      have hnb : ¬ (Scorer.must_accept ≤ acc + Scorer.cheapScorer f src tgt ∨
          acc + Scorer.cheapScorer f src tgt ≤ Scorer.must_reject) := by
        push_neg
        exact ⟨h1.2, h1.1⟩
      obtain ⟨k1, rfl⟩ : ∃ k1, k0 = k1 + 1 := ⟨k0 - 1, by omega⟩
      have hsplit : ∀ j, Scorer.cheapPartial (f :: fs) src tgt (j + 1) =
          Scorer.cheapScorer f src tgt + Scorer.cheapPartial fs src tgt j := by
        intro j
        simp [Scorer.cheapPartial]
      have hstep : Scorer.runCheap (f :: fs) src tgt acc =
          Scorer.runCheap fs src tgt (acc + Scorer.cheapScorer f src tgt) := by
        show (if Scorer.must_accept ≤ acc + Scorer.cheapScorer f src tgt ∨
            acc + Scorer.cheapScorer f src tgt ≤ Scorer.must_reject then
            acc + Scorer.cheapScorer f src tgt
          else Scorer.runCheap fs src tgt (acc + Scorer.cheapScorer f src tgt)) = _
        rw [if_neg hnb]
      have hk1len : k1 ≤ fs.length := by
        simp only [List.length_cons] at hklen
        omega
      have hin2 : ∀ j, 1 ≤ j → j < k1 →
          Scorer.must_reject < acc + Scorer.cheapScorer f src tgt +
            Scorer.cheapPartial fs src tgt j ∧
          acc + Scorer.cheapScorer f src tgt + Scorer.cheapPartial fs src tgt j <
            Scorer.must_accept := by
        intro j hj1 hjk
        have := hin (j + 1) (by omega) (by omega)
        rw [hsplit j] at this
        constructor
        · linarith [this.1]
        · linarith [this.2]
      have hstop2 : Scorer.must_accept ≤ acc + Scorer.cheapScorer f src tgt +
            Scorer.cheapPartial fs src tgt k1 ∨
          acc + Scorer.cheapScorer f src tgt + Scorer.cheapPartial fs src tgt k1 ≤
            Scorer.must_reject := by
        rw [hsplit k1] at hstop
        rcases hstop with hs | hs
        · exact Or.inl (by linarith)
        · exact Or.inr (by linarith)
      rw [hstep, ih (acc + Scorer.cheapScorer f src tgt) k1 (by omega) hk1len hin2 hstop2,
        hsplit k1]
      ring

/-- C2: `UnifiedScorer.score` accumulates the configured cheap scorers in
order with early exit at the `must_accept`/`must_reject` bounds, and returns
1.0 when the total reaches `must_accept`, -1.0 when it reaches `must_reject`,
and otherwise the final scorer's output (of asserted range) or 0 when no
final scorer is configured; when no intermediate total reaches a bound the
accumulated total is the plain sum of all configured cheap scorers. -/
theorem claim_c2_unified_score (u : Scorer.UnifiedScorer) (src tgt : String)
    (hb : ∀ f, u.finalScorer = some f →
      Scorer.final_neg_score ≤ f src tgt ∧ f src tgt ≤ Scorer.final_pos_score) :
    (u.score src tgt = some
      (if Scorer.must_accept ≤ Scorer.runCheap u.flags src tgt 0 then Scorer.final_pos_score
       else if Scorer.runCheap u.flags src tgt 0 ≤ Scorer.must_reject then
         Scorer.final_neg_score
       else match u.finalScorer with
         | some f => f src tgt
         | none => Scorer.not_sure)) ∧
    ((∀ k, 1 ≤ k → k < u.flags.length →
        Scorer.must_reject < Scorer.cheapPartial u.flags src tgt k ∧
        Scorer.cheapPartial u.flags src tgt k < Scorer.must_accept) →
      Scorer.runCheap u.flags src tgt 0 =
        Scorer.cheapPartial u.flags src tgt u.flags.length) ∧
    (∀ k0, 1 ≤ k0 → k0 ≤ u.flags.length →
      (∀ j, 1 ≤ j → j < k0 →
        Scorer.must_reject < Scorer.cheapPartial u.flags src tgt j ∧
        Scorer.cheapPartial u.flags src tgt j < Scorer.must_accept) →
      (Scorer.must_accept ≤ Scorer.cheapPartial u.flags src tgt k0 ∨
        Scorer.cheapPartial u.flags src tgt k0 ≤ Scorer.must_reject) →
      Scorer.runCheap u.flags src tgt 0 = Scorer.cheapPartial u.flags src tgt k0) := by
  refine ⟨?_, ?_, ?_⟩
  · by_cases h1 : Scorer.must_accept ≤ Scorer.runCheap u.flags src tgt 0
    · simp [Scorer.UnifiedScorer.score, h1]
    · by_cases h2 : Scorer.runCheap u.flags src tgt 0 ≤ Scorer.must_reject
      · simp [Scorer.UnifiedScorer.score, h1, h2]
      · cases hf : u.finalScorer with
        | none => simp [Scorer.UnifiedScorer.score, h1, h2, hf]
        | some f =>
          have hbf := hb f hf
          simp [Scorer.UnifiedScorer.score, h1, h2, hf, hbf.1, hbf.2]
  · intro h
    have := runCheap_no_break src tgt u.flags 0 (by
      intro k hk1 hklen
      simpa using h k hk1 hklen)
    simpa using this
  · intro k0 hk1 hklen hin hstop
    have := runCheap_stops src tgt u.flags 0 k0 hk1 hklen
      (by intro j hj1 hjk; simpa using hin j hj1 hjk)
      (by simpa using hstop)
    simpa using this

/-- Witness for C2: a scorer with only the character-length flag and no
final scorer returns 0 on a pair of one-character strings. -/
theorem claim_c2_witness : Scorer.UnifiedScorer.score exUnified "a" "b" = some 0 := by
  have h := (claim_c2_unified_score exUnified "a" "b"
    (by intro f hf; simp [exUnified] at hf)).1
  have hrun : Scorer.runCheap exUnified.flags "a" "b" 0 = 0 := by
    show Scorer.runCheap [Scorer.Flag.charlen] "a" "b" 0 = 0
    norm_num [Scorer.runCheap, Scorer.cheapScorer, Scorer.charlen_score, Scorer.not_sure,
      Scorer.must_accept, Scorer.must_reject, show ("a".length) = 1 from rfl,
      show ("b".length) = 1 from rfl]
  rw [h, hrun]
  norm_num [Scorer.must_accept, Scorer.must_reject, exUnified, Scorer.not_sure]

/-- C7: the copy-pattern scorer gives a strictly positive score to
"call 911 now" vs "phone 911 please" (equal numeral sets) and `must_reject`
to "call 911" vs "call 112" (differing numeral sets); in general a pattern
with equal match sets contributes `2 * may_accept * (number of matches)` and
one with unequal match sets contributes `must_reject`. -/
theorem claim_c7_copy_pattern :
    (0 < Scorer.copy_score "call 911 now" "phone 911 please") ∧
    (Scorer.copy_score "call 911" "call 112" = Scorer.must_reject) ∧
    (∀ srcM tgtM : List String,
      (srcM.toFinset = tgtM.toFinset →
        Scorer.patContribution srcM tgtM = 2 * Scorer.may_accept * srcM.toFinset.card) ∧
      (srcM.toFinset ≠ tgtM.toFinset →
        Scorer.patContribution srcM tgtM = Scorer.must_reject)) := by
  have hpat_alig : Scorer.patContribution ["911"] ["911"] = 2 := by
    simp only [Scorer.patContribution]
    rw [if_pos (by decide)]
    norm_num [Scorer.may_accept, show (["911"] : List String).toFinset.card = 1 from by decide]
  have hpat_empty : Scorer.patContribution ([] : List String) [] = 0 := by
    simp only [Scorer.patContribution]
    rw [if_pos (by decide)]
    norm_num
  have hpat_mis : Scorer.patContribution ["911"] ["112"] = Scorer.must_reject := by
    simp only [Scorer.patContribution]
    rw [if_neg (by decide)]
  refine ⟨?_, ?_, ?_⟩
  · have h1 : Scorer.copy_score "call 911 now" "phone 911 please" = 2 := by
      simp only [Scorer.copy_score, Scorer.copy_patterns, List.foldl]
      rw [show Scorer.digitFindall "call 911 now" = ["911"] from by decide,
          show Scorer.digitFindall "phone 911 please" = ["911"] from by decide,
          show Scorer.urlFindall "call 911 now" = [] from by decide,
          show Scorer.urlFindall "phone 911 please" = [] from by decide,
          hpat_alig, hpat_empty]
      norm_num
    rw [h1]
    norm_num
  · simp only [Scorer.copy_score, Scorer.copy_patterns, List.foldl]
    rw [show Scorer.digitFindall "call 911" = ["911"] from by decide,
        show Scorer.digitFindall "call 112" = ["112"] from by decide,
        show Scorer.urlFindall "call 911" = [] from by decide,
        show Scorer.urlFindall "call 112" = [] from by decide,
        hpat_mis, hpat_empty]
    norm_num
  · intro srcM tgtM
    constructor
    · intro heq
      simp only [Scorer.patContribution]
      rw [if_pos ⟨by rw [heq], by rw [heq, Finset.inter_self]⟩]
    · intro hne
      simp only [Scorer.patContribution]
      rw [if_neg ?_]
      rintro ⟨hc1, hc2⟩
      have hint_tgt : srcM.toFinset ∩ tgtM.toFinset = tgtM.toFinset :=
        Finset.eq_of_subset_of_card_le Finset.inter_subset_right (le_of_eq hc2)
      have hint_src : srcM.toFinset ∩ tgtM.toFinset = srcM.toFinset :=
        Finset.eq_of_subset_of_card_le Finset.inter_subset_left
          (le_of_eq (hc2 ▸ hc1))
      exact hne (by rw [← hint_src, hint_tgt])

/-- Witness for C7: the aligned branch applied to the concrete match set. -/
theorem claim_c7_witness :
    Scorer.patContribution ["911"] ["911"] =
      2 * Scorer.may_accept * (["911"] : List String).toFinset.card :=
  ((claim_c7_copy_pattern).2.2 ["911"] ["911"]).1 (by decide)

/-! Helper lemmas for the translation scorer bounds. -/

theorem maxList_le_of (b : ℚ) : ∀ (l : List ℚ), (∀ x ∈ l, x ≤ b) → l ≠ [] → maxList l ≤ b := by
  intro l
  induction l with
  | nil => intro _ h; exact absurd rfl h
  | cons x xs ih =>
    intro hle _
    cases xs with
    | nil => simpa [maxList] using hle x (by simp)
    | cons y ys =>
      rw [show maxList (x :: y :: ys) = max x (maxList (y :: ys)) from rfl]
      exact max_le (hle x (by simp)) (ih (fun z hz => hle z (by simp [hz])) (by simp))

theorem maxList_nonneg : ∀ (l : List ℚ), (∀ x ∈ l, 0 ≤ x) → l ≠ [] → 0 ≤ maxList l := by
  intro l
  induction l with
  | nil => intro _ h; exact absurd rfl h
  | cons x xs _ =>
    intro hle _
    cases xs with
    | nil => simpa [maxList] using hle x (by simp)
    | cons y ys =>
      rw [show maxList (x :: y :: ys) = max x (maxList (y :: ys)) from rfl]
      exact le_trans (hle x (by simp)) (le_max_left _ _)

theorem sum_filter_map_snd_le (q : String × ℚ → Bool) (l : List (String × ℚ))
    (h : ∀ p ∈ l, 0 ≤ p.2) :
    ((l.filter q).map (fun p => p.2)).sum ≤ (l.map (fun p => p.2)).sum := by
  induction l with
  | nil => simp
  | cons x xs ih =>
    have hx := h x (List.mem_cons_self _ _)
    have ihh := ih (fun p hp => h p (List.mem_cons_of_mem _ hp))
    by_cases hq : q x
    · rw [List.filter_cons_of_pos hq]
      simp only [List.map_cons, List.sum_cons]
      linarith
    · rw [List.filter_cons_of_neg hq]
      simp only [List.map_cons, List.sum_cons]
      linarith

theorem translation_evidence_bounds (comb : Transcorer.Combiner) (tok : String)
    (ttab : Transcorer.TTab) (cand : List String) (hok : Transcorer.TableOk ttab) :
    0 ≤ Transcorer.translation_evidence comb tok ttab cand ∧
    Transcorer.translation_evidence comb tok ttab cand ≤ 1 := by
  unfold Transcorer.translation_evidence
  cases hget : Transcorer.dictGet ttab tok with
  | none =>
    by_cases htok : tok ∈ cand <;> simp [htok]
  | some probs =>
    have hex : ∃ e ∈ ttab, e.2 = probs := by
      unfold Transcorer.dictGet at hget
      rw [Option.map_eq_some'] at hget
      obtain ⟨e, hfind, hee⟩ := hget
      exact ⟨e, List.mem_of_find?_eq_some hfind, hee⟩
    obtain ⟨e, he, hep⟩ := hex
    have hentry := hok e he
    rw [hep] at hentry
    by_cases hemp : probs.isEmpty
    · by_cases htok : tok ∈ cand <;> simp [hemp, htok]
    · simp only [hemp, if_false, Bool.false_eq_true]
      by_cases hcs : ((probs.filter (fun kv => kv.1 ∈ cand)).map (fun kv => kv.2)).isEmpty
      · simp [hcs]
      · simp only [hcs, if_false, Bool.false_eq_true]
        have hels : ∀ x ∈ (probs.filter (fun kv => kv.1 ∈ cand)).map (fun kv => kv.2),
            0 ≤ x ∧ x ≤ 1 := by
          intro x hx
          obtain ⟨p, hp, hpx⟩ := List.mem_map.mp hx
          have hpp := List.mem_of_mem_filter hp
          refine ⟨hpx ▸ hentry.1 p hpp, ?_⟩
          have hone : p.2 ≤ (probs.map (fun p => p.2)).sum :=
            List.single_le_sum
              (by intro y hy
                  obtain ⟨p2, hp2, hp2y⟩ := List.mem_map.mp hy
                  exact hp2y ▸ hentry.1 p2 hp2)
              p.2 (List.mem_map_of_mem _ hpp)
          exact hpx ▸ le_trans hone hentry.2
        have hne : (probs.filter (fun kv => kv.1 ∈ cand)).map (fun kv => kv.2) ≠ [] := by
          intro hc
          rw [hc] at hcs
          exact hcs rfl
        cases comb with
        | sum =>
          simp only [Transcorer.Combiner.apply]
          constructor
          · exact List.sum_nonneg (fun x hx => (hels x hx).1)
          · exact le_trans
              (sum_filter_map_snd_le (fun kv => kv.1 ∈ cand) probs hentry.1)
              hentry.2
        | max =>
          simp only [Transcorer.Combiner.apply]
          constructor
          · exact maxList_nonneg _ (fun x hx => (hels x hx).1) hne
          · exact maxList_le_of 1 _ (fun x hx => (hels x hx).2) hne

theorem list_mean_bounds (l : List ℚ) (hne : l ≠ []) (h : ∀ x ∈ l, 0 ≤ x ∧ x ≤ 1) :
    0 ≤ l.sum / l.length ∧ l.sum / l.length ≤ 1 := by
  have hlen : 0 < (l.length : ℚ) := by
    have := List.length_pos.mpr hne
    exact_mod_cast this
  constructor
  · exact div_nonneg (List.sum_nonneg fun x hx => (h x hx).1) hlen.le
  · rw [div_le_one hlen]
    have := List.sum_le_card_nsmul l 1 (fun x hx => (h x hx).2)
    simpa using this

/-- C5 counterexample: with the `sum` combiner and a table whose entries are
each a legitimate probability (0.9) but sum to 2.7, `TranScorer.score`
returns 27/20 > 1, so the score is not in [0, 1] for every translation
table. -/
theorem claim_c5_counterexample :
    Transcorer.TranScorer.score exTranScorerHigh "x" "a b c" = some (27/20) ∧
    ¬ ((27 : ℚ)/20 ≤ 1) := by
  constructor
  · simp [Transcorer.TranScorer.score, exTranScorerHigh, pySplit, pySplitGo,
      Transcorer.translation_evidence, Transcorer.dictGet, Transcorer.Combiner.apply]
    norm_num
  · norm_num

/-- C5 (amended): for any translation scorer whose forward and inverse
tables have non-negative per-token probabilities summing to at most 1, every
value `TranScorer.score` returns (so in particular whenever both token lists
are non-empty) lies in [0, 1]. -/
theorem claim_c5_amended (sc : Transcorer.TranScorer)
    (hf : Transcorer.TableOk sc.src_tgt) (hi : Transcorer.TableOk sc.tgt_src)
    (src tgt : String) (q : ℚ)
    (h : Transcorer.TranScorer.score sc src tgt = some q) :
    0 ≤ q ∧ q ≤ 1 := by
  simp only [Transcorer.TranScorer.score] at h
  split at h
  · cases h
  · split at h
    · cases h
    · next hsrc htgt =>
      injection h with h
      subst h
      have hsrcb := list_mean_bounds
        ((sc.src_prep src).map
          (fun t => Transcorer.translation_evidence sc.combiner t sc.src_tgt (sc.tgt_prep tgt)))
        (by intro hc; rw [hc] at hsrc; exact hsrc rfl)
        (by intro x hx
            obtain ⟨t, _, hts⟩ := List.mem_map.mp hx
            exact hts ▸ translation_evidence_bounds sc.combiner t sc.src_tgt _ hf)
      have htgtb := list_mean_bounds
        ((sc.tgt_prep tgt).map
          (fun t => Transcorer.translation_evidence sc.combiner t sc.tgt_src (sc.src_prep src)))
        (by intro hc; rw [hc] at htgt; exact htgt rfl)
        (by intro x hx
            obtain ⟨t, _, hts⟩ := List.mem_map.mp hx
            exact hts ▸ translation_evidence_bounds sc.combiner t sc.tgt_src _ hi)
      constructor
      · have := add_nonneg hsrcb.1 htgtb.1
        positivity
      · rw [div_le_one (by norm_num : (0:ℚ) < 2)]
        linarith [hsrcb.2, htgtb.2]

/-- Witness for the amended C5: the well-formed one-entry scorer scores
"x" vs "a" as 1/4, inside [0, 1]. -/
theorem claim_c5_witness : 0 ≤ (1 : ℚ)/4 ∧ (1 : ℚ)/4 ≤ 1 :=
  claim_c5_amended exTranScorer
    (by simp [Transcorer.TableOk, exTranScorer]; norm_num)
    (by simp [Transcorer.TableOk, exTranScorer])
    "x" "a" (1/4)
    (by simp [Transcorer.TranScorer.score, exTranScorer, pySplit, pySplitGo,
          Transcorer.translation_evidence, Transcorer.dictGet, Transcorer.Combiner.apply]
        norm_num)

/-- C6 counterexample: the divisions of `TranScorer.score` are not guarded;
on the empty sentence (empty token list) the function raises
`ZeroDivisionError` (modelled `none`) instead of yielding score 0, and
nothing upstream rejects the input. -/
theorem claim_c6_counterexample :
    Transcorer.TranScorer.score exTranScorer "" "a" = none := by
  simp [Transcorer.TranScorer.score, exTranScorer, pySplit, pySplitGo]

/-- C6 (amended): on every input whose preprocessed token lists are both
non-empty, `TranScorer.score` performs no division by zero and returns a
value; an empty token list instead raises `ZeroDivisionError`. -/
theorem claim_c6_amended (sc : Transcorer.TranScorer) (src tgt : String)
    (hs : sc.src_prep src ≠ []) (ht : sc.tgt_prep tgt ≠ []) :
    ∃ q, Transcorer.TranScorer.score sc src tgt = some q := by
  simp only [Transcorer.TranScorer.score]
  rw [if_neg (by simp [List.isEmpty_iff, hs]), if_neg (by simp [List.isEmpty_iff, ht])]
  exact ⟨_, rfl⟩

/-- Witness for the amended C6 on the concrete one-entry scorer. -/
theorem claim_c6_witness :
    ∃ q, Transcorer.TranScorer.score exTranScorer "x" "a" = some q :=
  claim_c6_amended exTranScorer "x" "a" (by decide) (by decide)

/-- C8 counterexample: on the single positive score 1/2 the reported
statistic is `((1 - 1/2)^2 / 1) ** 0.5 = 1/2`, while the mean of the squared
deviations is 1/4; likewise on the negative side.  The harness reports the
square root of the mean, not the mean. -/
theorem claim_c8_counterexample :
    Utils.pos_mse [1/2] ≠ ((Utils.posMeanSqDev [1/2] : ℚ) : ℝ) ∧
    Utils.neg_mse [1/2] ≠ ((Utils.negMeanSqDev [1/2] : ℚ) : ℝ) := by
  have hqpos : ((Utils.pos_errors [1/2]).sum / (Utils.pos_errors [1/2]).length : ℚ) = 1/4 := by
    simp [Utils.pos_errors]
    norm_num
  have hqneg : ((Utils.neg_error [1/2] / ([(1:ℚ)/2] : List ℚ).length : ℚ)) = 1/4 := by
    simp [Utils.neg_error]
    norm_num
  have hcast : (((1:ℚ)/4 : ℚ) : ℝ) = (1/2 : ℝ)^2 := by
    push_cast
    norm_num
  have h1 : Utils.pos_mse [1/2] = 1/2 := by
    unfold Utils.pos_mse
    rw [hqpos, hcast, Real.sqrt_sq (by norm_num : (0:ℝ) ≤ 1/2)]
  have h2 : Utils.posMeanSqDev [1/2] = 1/4 := by
    simp [Utils.posMeanSqDev]
    norm_num
  have h3 : Utils.neg_mse [1/2] = 1/2 := by
    unfold Utils.neg_mse
    rw [hqneg, hcast, Real.sqrt_sq (by norm_num : (0:ℝ) ≤ 1/2)]
  have h4 : Utils.negMeanSqDev [1/2] = 1/4 := by
    simp [Utils.negMeanSqDev]
    norm_num
  constructor
  · rw [h1, h2]
    push_cast
    norm_num
  · rw [h3, h4]
    push_cast
    norm_num

/-- C8 (amended): the reported positive-side statistic is the square root of
the mean of the squared clamped deviations of the true-pair scores from 1.0,
and the negative-side statistic is the square root of the mean of the squared
clamped deviations of the distractor scores from 0.0: squaring each reported
statistic recovers exactly the corresponding mean. -/
theorem claim_c8_amended (vs : List ℚ) (hne : vs ≠ []) :
    Utils.pos_mse vs = Real.sqrt ((Utils.posMeanSqDev vs : ℚ)) ∧
    (Utils.pos_mse vs) ^ 2 = ((Utils.posMeanSqDev vs : ℚ) : ℝ) ∧
    Utils.neg_mse vs = Real.sqrt ((Utils.negMeanSqDev vs : ℚ)) ∧
    (Utils.neg_mse vs) ^ 2 = ((Utils.negMeanSqDev vs : ℚ) : ℝ) ∧
    0 ≤ Utils.pos_mse vs ∧ 0 ≤ Utils.neg_mse vs := by
  have hposmean : 0 ≤ Utils.posMeanSqDev vs := by
    unfold Utils.posMeanSqDev
    apply div_nonneg
    · exact List.sum_nonneg (by
        intro x hx
        obtain ⟨v, _, hvx⟩ := List.mem_map.mp hx
        exact hvx ▸ sq_nonneg _)
    · positivity
  have hnegmean : 0 ≤ Utils.negMeanSqDev vs := by
    unfold Utils.negMeanSqDev
    apply div_nonneg
    · exact List.sum_nonneg (by
        intro x hx
        obtain ⟨v, _, hvx⟩ := List.mem_map.mp hx
        exact hvx ▸ sq_nonneg _)
    · positivity
  have hpe : Utils.pos_mse vs = Real.sqrt ((Utils.posMeanSqDev vs : ℚ)) := by
    unfold Utils.pos_mse Utils.pos_errors Utils.posMeanSqDev
    rw [List.length_map]
  have hn : Utils.neg_mse vs = Real.sqrt ((Utils.negMeanSqDev vs : ℚ)) := by
    unfold Utils.neg_mse Utils.neg_error Utils.negMeanSqDev
    rfl
  refine ⟨hpe, ?_, hn, ?_, ?_, ?_⟩
  · rw [hpe, Real.sq_sqrt (by exact_mod_cast hposmean)]
  · rw [hn, Real.sq_sqrt (by exact_mod_cast hnegmean)]
  · rw [hpe]; exact Real.sqrt_nonneg _
  · rw [hn]; exact Real.sqrt_nonneg _

/-- Witness for the amended C8 at the concrete score list `[1/2]`. -/
theorem claim_c8_witness :
    (Utils.pos_mse [1/2]) ^ 2 = ((Utils.posMeanSqDev [1/2] : ℚ) : ℝ) :=
  (claim_c8_amended [1/2] (by simp)).2.1
